import Mathlib

/-
Verification of the photo-based card-news rendering engine
(src/card_news.py): greedy text wrapping, bullet-list parsing,
cover-fit crop geometry, gradient-overlay alpha, font resolution,
the template registry, and the carousel orchestrator.

Python strings are modelled as lists of characters; the pixel
measurement of a text run by a font (draw.textbbox((0, 0), t, font)[2])
is modelled as an abstract function from strings to naturals.
-/

/-- Python strings, modelled as lists of characters. -/
abbrev Str := List Char

/-- Whitespace test backing Python str.split() and str.strip(). -/
def isWs (c : Char) : Bool := c.isWhitespace

/-- Splitting a string at every character satisfying p, keeping empty
pieces: the semantics of Python str.split(sep) for a one-character
separator when p tests equality with that separator. -/
def splitPred (p : Char → Bool) : Str → List Str
  | [] => [[]]
  | c :: cs =>
    if p c then [] :: splitPred p cs
    else
      match splitPred p cs with
      | [] => [[c]]
      | q :: qs => (c :: q) :: qs

/-- Python text.split("\n"), as used by CardNewsRenderer._wrap. -/
def splitNl (s : Str) : List Str := splitPred (fun c => c == '\n') s

/-- Python para.split() with no argument: the maximal runs of
non-whitespace characters. -/
def pyWords (s : Str) : List Str := (splitPred isWs s).filter (fun w => !w.isEmpty)

/-- Python s.strip(): drop whitespace from both ends. -/
def pyStrip (s : Str) : Str := ((s.dropWhile isWs).reverse.dropWhile isWs).reverse

/-- Inner loop of CardNewsRenderer._wrap for one paragraph: cur is the
accumulated candidate line, the list holds the remaining words; a word is
appended when the measured width of the extended candidate stays within
maxW, otherwise the candidate is committed and the word opens a new line. -/
def wrapLoop (width : Str → Nat) (maxW : Nat) (cur : Str) : List Str → List Str
  | [] => [cur]
  | w :: ws =>
    if width (cur ++ ' ' :: w) ≤ maxW then wrapLoop width maxW (cur ++ ' ' :: w) ws
    else cur :: wrapLoop width maxW w ws

/-- Per-paragraph body of CardNewsRenderer._wrap: a whitespace-only
paragraph contributes one empty line, otherwise the words are wrapped
greedily. -/
def wrapPara (width : Str → Nat) (maxW : Nat) (para : Str) : List Str :=
  if pyStrip para = [] then [[]]
  else
    match pyWords para with
    | [] => [[]]
    | w :: ws => wrapLoop width maxW w ws

/-- Model of CardNewsRenderer._wrap: split the text on explicit newline
characters into paragraphs and concatenate the wrapped lines of each
paragraph, in order. The width function abstracts the pixel measurement
of a string by the given font. -/
def wrap (width : Str → Nat) (maxW : Nat) (text : Str) : List Str :=
  (splitNl text).flatMap (wrapPara width maxW)

/-- A line that consists of exactly one word: nonempty, with no
whitespace character at all. -/
def oneWord (s : Str) : Bool := !s.isEmpty && s.all (fun c => !isWs c)

lemma splitPred_ne_nil (p : Char → Bool) (s : Str) : splitPred p s ≠ [] := by
  induction s with
  | nil => simp [splitPred]
  | cons c cs ih =>
    by_cases hc : p c
    · simp [splitPred, hc]
    · simp only [splitPred, hc, if_false]
      cases h : splitPred p cs with
      | nil => exact absurd h ih
      | cons q qs => simp

lemma mem_splitPred (p : Char → Bool) :
    ∀ (s : Str), ∀ t ∈ splitPred p s, (∀ c ∈ t, p c = false) ∧ (∀ c ∈ t, c ∈ s) := by
  intro s
  induction s with
  | nil =>
    intro t ht
    simp [splitPred] at ht
    subst ht
    simp
  | cons c cs ih =>
    intro t ht
    by_cases hc : p c
    · simp only [splitPred, hc, if_true, List.mem_cons] at ht
      rcases ht with h | h
      · subst h; simp
      · obtain ⟨h1, h2⟩ := ih t h
        exact ⟨h1, fun d hd => List.mem_cons_of_mem c (h2 d hd)⟩
    · simp only [splitPred, hc, if_false] at ht
      cases h : splitPred p cs with
      | nil => exact absurd h (splitPred_ne_nil p cs)
      | cons q qs =>
        rw [h] at ht
        rcases List.mem_cons.mp ht with h1 | h1
        · subst h1
          have hq : q ∈ splitPred p cs := by rw [h]; exact List.mem_cons_self q qs
          obtain ⟨hq1, hq2⟩ := ih q hq
          constructor
          · intro d hd
            rcases List.mem_cons.mp hd with rfl | hd
            · simpa using hc
            · exact hq1 d hd
          · intro d hd
            rcases List.mem_cons.mp hd with rfl | hd
            · exact List.mem_cons_self d cs
            · exact List.mem_cons_of_mem c (hq2 d hd)
        · have hq : t ∈ splitPred p cs := by rw [h]; exact List.mem_cons_of_mem q h1
          obtain ⟨h1, h2⟩ := ih t hq
          exact ⟨h1, fun d hd => List.mem_cons_of_mem c (h2 d hd)⟩

lemma mem_pyWords (s : Str) (w : Str) (hw : w ∈ pyWords s) :
    w ≠ [] ∧ ∀ c ∈ w, isWs c = false := by
  unfold pyWords at hw
  rw [List.mem_filter] at hw
  obtain ⟨hmem, hne⟩ := hw
  refine ⟨?_, (mem_splitPred isWs s w hmem).1⟩
  intro h
  subst h
  simp at hne

lemma wrapLoop_good (width : Str → Nat) (maxW : Nat) :
    ∀ (ws : List Str) (cur : Str),
      (width cur ≤ maxW ∨ oneWord cur = true) →
      (∀ w ∈ ws, oneWord w = true) →
      ∀ line ∈ wrapLoop width maxW cur ws, width line ≤ maxW ∨ oneWord line = true := by
  intro ws
  induction ws with
  | nil =>
    intro cur hcur _ line hline
    simp [wrapLoop] at hline
    subst hline
    exact hcur
  | cons w ws ih =>
    intro cur hcur hws line hline
    simp only [wrapLoop] at hline
    by_cases ht : width (cur ++ ' ' :: w) ≤ maxW
    · rw [if_pos ht] at hline
      exact ih (cur ++ ' ' :: w) (Or.inl ht)
        (fun v hv => hws v (List.mem_cons_of_mem w hv)) line hline
    · rw [if_neg ht] at hline
      rcases List.mem_cons.mp hline with rfl | hline
      · exact hcur
      · exact ih w (Or.inr (hws w (List.mem_cons_self w ws)))
          (fun v hv => hws v (List.mem_cons_of_mem w hv)) line hline

lemma oneWord_of_pyWords (s : Str) (w : Str) (hw : w ∈ pyWords s) : oneWord w = true := by
  obtain ⟨h1, h2⟩ := mem_pyWords s w hw
  unfold oneWord
  rw [Bool.and_eq_true]
  constructor
  · simpa [List.isEmpty_iff] using h1
  · rw [List.all_eq_true]
    intro c hc
    simp [h2 c hc]

/-- CLAIM C1: for every font measure, every text and every max width > 0,
each line produced by the wrap operation measures at most the maximum
width, except a line that is a single word whose own measured width
already exceeds it (such a word is kept intact, never split). The
hypothesis on the empty string reflects that a real font measures the
empty text run at width zero. -/
theorem wrap_lines_fit (width : Str → Nat) (maxW : Nat) (text : Str)
    (hmax : 0 < maxW) (hempty : width [] = 0) :
    ∀ line ∈ wrap width maxW text,
      width line ≤ maxW ∨ (oneWord line = true ∧ maxW < width line) := by
  intro line hline
  have key : width line ≤ maxW ∨ oneWord line = true := by
    unfold wrap at hline
    rw [List.mem_flatMap] at hline
    obtain ⟨para, _, hpara⟩ := hline
    unfold wrapPara at hpara
    by_cases hs : pyStrip para = []
    · rw [if_pos hs] at hpara
      simp at hpara
      subst hpara
      exact Or.inl (by simpa [hempty] using Nat.zero_le maxW)
    · rw [if_neg hs] at hpara
      cases hwords : pyWords para with
      | nil =>
        rw [hwords] at hpara
        simp at hpara
        subst hpara
        exact Or.inl (by simpa [hempty] using Nat.zero_le maxW)
      | cons w ws =>
        rw [hwords] at hpara
        have hw : oneWord w = true :=
          oneWord_of_pyWords para w (by rw [hwords]; exact List.mem_cons_self w ws)
        have hws : ∀ v ∈ ws, oneWord v = true := by
          intro v hv
          exact oneWord_of_pyWords para v (by rw [hwords]; exact List.mem_cons_of_mem w hv)
        exact wrapLoop_good width maxW ws w (Or.inr hw) hws line hpara
  by_cases hle : width line ≤ maxW
  · exact Or.inl hle
  · rcases key with h | h
    · exact Or.inl h
    · exact Or.inr ⟨h, Nat.lt_of_not_le hle⟩

/-- Witness for wrap_lines_fit at a concrete measure (string length),
width 5 and text "ab cd": the single produced line fits. -/
theorem wrap_lines_fit_witness :
    List.length (String.toList "ab cd") ≤ 5 ∨
      (oneWord (String.toList "ab cd") = true ∧ 5 < List.length (String.toList "ab cd")) :=
  wrap_lines_fit List.length 5 (String.toList "ab cd") (by decide) rfl
    (String.toList "ab cd") (by decide)

/-- Python "\n".join(lines). -/
def joinNl : List Str → Str
  | [] => []
  | [l] => l
  | l :: ls => l ++ '\n' :: joinNl ls

lemma splitPred_cons_pos (p : Char → Bool) (c : Char) (cs : Str) (h : p c = true) :
    splitPred p (c :: cs) = [] :: splitPred p cs := by
  simp [splitPred, h]

lemma splitPred_cons_neg (p : Char → Bool) (c : Char) (cs : Str) (q : Str) (qs : List Str)
    (h : p c = false) (hcs : splitPred p cs = q :: qs) :
    splitPred p (c :: cs) = (c :: q) :: qs := by
  simp [splitPred, h, hcs]

lemma splitPred_append_sep (p : Char → Bool) (c : Char) (hc : p c = true) :
    ∀ (xs ys : Str), splitPred p (xs ++ c :: ys) = splitPred p xs ++ splitPred p ys := by
  intro xs ys
  induction xs with
  | nil => simp [splitPred, hc]
  | cons x xs ih =>
    by_cases hx : p x
    · rw [List.cons_append, splitPred_cons_pos p x _ hx, splitPred_cons_pos p x xs hx, ih,
        List.cons_append]
    · have hxf : p x = false := Bool.eq_false_iff.mpr hx
      cases h : splitPred p xs with
      | nil => exact absurd h (splitPred_ne_nil p xs)
      | cons q qs =>
        have hl : splitPred p (xs ++ c :: ys) = q :: (qs ++ splitPred p ys) := by
          rw [ih, h, List.cons_append]
        rw [List.cons_append, splitPred_cons_neg p x _ q (qs ++ splitPred p ys) hxf hl,
          splitPred_cons_neg p x xs q qs hxf h, List.cons_append]

lemma splitPred_no_sep (p : Char → Bool) :
    ∀ (s : Str), (∀ c ∈ s, p c = false) → splitPred p s = [s] := by
  intro s
  induction s with
  | nil => intro _; rfl
  | cons c cs ih =>
    intro h
    have hc : p c = false := h c (List.mem_cons_self c cs)
    have hcs := ih (fun d hd => h d (List.mem_cons_of_mem c hd))
    simp [splitPred, hc, hcs]

lemma splitNl_joinNl :
    ∀ (ls : List Str), ls ≠ [] →
      (∀ l ∈ ls, ∀ c ∈ l, (c == '\n') = false) →
      splitNl (joinNl ls) = ls := by
  intro ls
  induction ls with
  | nil => intro h; exact absurd rfl h
  | cons l ls ih =>
    intro _ hnl
    cases ls with
    | nil =>
      show splitNl (joinNl [l]) = [l]
      have : joinNl [l] = l := rfl
      rw [this]
      exact splitPred_no_sep _ l (hnl l (List.mem_cons_self l []))
    | cons l2 ls2 =>
      have hj : joinNl (l :: l2 :: ls2) = l ++ '\n' :: joinNl (l2 :: ls2) := rfl
      rw [hj]
      unfold splitNl
      rw [splitPred_append_sep _ '\n' (by decide) l (joinNl (l2 :: ls2))]
      rw [splitPred_no_sep _ l (hnl l (List.mem_cons_self l (l2 :: ls2)))]
      have ih2 := ih (by simp)
        (fun v hv => hnl v (List.mem_cons_of_mem l hv))
      unfold splitNl at ih2
      rw [ih2]
      rfl

lemma wrapLoop_ne_nil (width : Str → Nat) (maxW : Nat) :
    ∀ (ws : List Str) (cur : Str), wrapLoop width maxW cur ws ≠ [] := by
  intro ws
  induction ws with
  | nil => intro cur; simp [wrapLoop]
  | cons w ws ih =>
    intro cur
    by_cases h : width (cur ++ ' ' :: w) ≤ maxW <;> simp [wrapLoop, h]
    exact ih (cur ++ ' ' :: w)

lemma wrapLoop_snoc (width : Str → Nat) (maxW : Nat) :
    ∀ (ws : List Str) (cur w : Str),
      ∃ pre lst, wrapLoop width maxW cur ws = pre ++ [lst] ∧
        wrapLoop width maxW cur (ws ++ [w]) =
          pre ++ (if width (lst ++ ' ' :: w) ≤ maxW then [lst ++ ' ' :: w] else [lst, w]) := by
  intro ws
  induction ws with
  | nil =>
    intro cur w
    refine ⟨[], cur, by simp [wrapLoop], ?_⟩
    by_cases h : width (cur ++ ' ' :: w) ≤ maxW <;> simp [wrapLoop, h]
  | cons v ws ih =>
    intro cur w
    by_cases h : width (cur ++ ' ' :: v) ≤ maxW
    · obtain ⟨pre, lst, h1, h2⟩ := ih (cur ++ ' ' :: v) w
      exact ⟨pre, lst, by simpa [wrapLoop, h] using h1, by simpa [wrapLoop, h] using h2⟩
    · obtain ⟨pre, lst, h1, h2⟩ := ih v w
      exact ⟨cur :: pre, lst, by simp [wrapLoop, h, h1], by simp [wrapLoop, h, h2]⟩

/-- Lines the wrap loop can commit: a single word, or a word chain whose
every intermediate extension passed the width test. -/
inductive WrapChain (width : Str → Nat) (maxW : Nat) : Str → Prop where
  | single (w : Str) (hne : w ≠ []) (hws : ∀ c ∈ w, isWs c = false) :
      WrapChain width maxW w
  | extend (cur w : Str) (hcur : WrapChain width maxW cur) (hne : w ≠ [])
      (hws : ∀ c ∈ w, isWs c = false)
      (ht : width (cur ++ ' ' :: w) ≤ maxW) : WrapChain width maxW (cur ++ ' ' :: w)

lemma chain_chars {width : Str → Nat} {maxW : Nat} {cur : Str}
    (h : WrapChain width maxW cur) : ∀ c ∈ cur, c = ' ' ∨ isWs c = false := by
  induction h with
  | single w _ hws => exact fun c hc => Or.inr (hws c hc)
  | extend cur w _ _ hws _ ih =>
    intro c hc
    rcases List.mem_append.mp hc with hc | hc
    · exact ih c hc
    · rcases List.mem_cons.mp hc with rfl | hc
      · exact Or.inl rfl
      · exact Or.inr (hws c hc)

lemma chain_no_nl {width : Str → Nat} {maxW : Nat} {cur : Str}
    (h : WrapChain width maxW cur) : ∀ c ∈ cur, (c == '\n') = false := by
  intro c hc
  rcases chain_chars h c hc with rfl | hws
  · decide
  · by_contra hne
    have : c = '\n' := by
      have := Bool.of_not_eq_false hne
      exact eq_of_beq this
    subst this
    simp [isWs] at hws

lemma pyStrip_eq_nil_iff (s : Str) : pyStrip s = [] ↔ ∀ c ∈ s, isWs c = true := by
  unfold pyStrip
  rw [List.reverse_eq_nil_iff, List.dropWhile_eq_nil_iff]
  constructor
  · intro h c hc
    by_cases hmem : c ∈ s.dropWhile isWs
    · exact h c (List.mem_reverse.mpr hmem)
    · have hsplit : s.takeWhile isWs ++ s.dropWhile isWs = s := List.takeWhile_append_dropWhile isWs s
      rw [← hsplit] at hc
      rcases List.mem_append.mp hc with hc | hc
      · exact List.mem_takeWhile_imp hc
      · exact absurd hc hmem
  · intro h c hc
    have : c ∈ s.dropWhile isWs := List.mem_reverse.mp hc
    exact h c ((List.dropWhile_sublist isWs).mem this)

lemma pyWords_single (w : Str) (hne : w ≠ []) (hws : ∀ c ∈ w, isWs c = false) :
    pyWords w = [w] := by
  unfold pyWords
  rw [splitPred_no_sep isWs w hws]
  simp [hne]

lemma pyWords_append_word (cur w : Str) (hne : w ≠ []) (hws : ∀ c ∈ w, isWs c = false) :
    pyWords (cur ++ ' ' :: w) = pyWords cur ++ [w] := by
  unfold pyWords
  rw [splitPred_append_sep isWs ' ' (by decide) cur w, List.filter_append,
    splitPred_no_sep isWs w hws]
  simp [hne]

lemma chain_wrap {width : Str → Nat} {maxW : Nat} :
    ∀ (cur : Str), WrapChain width maxW cur →
      ∃ w ws, pyWords cur = w :: ws ∧ wrapLoop width maxW w ws = [cur] := by
  intro cur h
  induction h with
  | single w hne hws =>
    exact ⟨w, [], pyWords_single w hne hws, by simp [wrapLoop]⟩
  | extend cur w hcur hne hws ht ih =>
    obtain ⟨w0, ws0, hpw, hwl⟩ := ih
    refine ⟨w0, ws0 ++ [w], ?_, ?_⟩
    · rw [pyWords_append_word cur w hne hws, hpw, List.cons_append]
    · obtain ⟨pre, lst, h1, h2⟩ := wrapLoop_snoc width maxW ws0 w0 w
      rw [hwl] at h1
      have hpre : pre = [] ∧ lst = cur := by
        cases pre with
        | nil => simpa using h1.symm
        | cons a pre2 =>
          have := congrArg List.length h1
          simp at this
      rw [h2, hpre.1, hpre.2, if_pos ht]
      simp

lemma chain_strip_ne {width : Str → Nat} {maxW : Nat} {cur : Str}
    (h : WrapChain width maxW cur) : pyStrip cur ≠ [] := by
  obtain ⟨w, ws, hpw, _⟩ := chain_wrap cur h
  have hwmem : w ∈ pyWords cur := by rw [hpw]; exact List.mem_cons_self w ws
  obtain ⟨hwne, hwws⟩ := mem_pyWords cur w hwmem
  have hwsub : w ∈ splitPred isWs cur := (List.mem_filter.mp hwmem).1
  obtain ⟨_, hsub⟩ := mem_splitPred isWs cur w hwsub
  intro hstrip
  cases w with
  | nil => exact hwne rfl
  | cons c cs =>
    have hc : isWs c = true :=
      (pyStrip_eq_nil_iff cur).mp hstrip c (hsub c (List.mem_cons_self c cs))
    have := hwws c (List.mem_cons_self c cs)
    rw [this] at hc
    exact Bool.false_ne_true hc

lemma chain_wrapPara {width : Str → Nat} {maxW : Nat} {cur : Str}
    (h : WrapChain width maxW cur) : wrapPara width maxW cur = [cur] := by
  unfold wrapPara
  rw [if_neg (chain_strip_ne h)]
  obtain ⟨w, ws, hpw, hwl⟩ := chain_wrap cur h
  rw [hpw]
  exact hwl

lemma wrapLoop_chain (width : Str → Nat) (maxW : Nat) :
    ∀ (ws : List Str) (cur : Str), WrapChain width maxW cur →
      (∀ w ∈ ws, w ≠ [] ∧ ∀ c ∈ w, isWs c = false) →
      ∀ line ∈ wrapLoop width maxW cur ws, WrapChain width maxW line := by
  intro ws
  induction ws with
  | nil =>
    intro cur hcur _ line hline
    simp [wrapLoop] at hline
    subst hline
    exact hcur
  | cons w ws ih =>
    intro cur hcur hws line hline
    obtain ⟨hwne, hwws⟩ := hws w (List.mem_cons_self w ws)
    simp only [wrapLoop] at hline
    by_cases ht : width (cur ++ ' ' :: w) ≤ maxW
    · rw [if_pos ht] at hline
      exact ih (cur ++ ' ' :: w) (WrapChain.extend cur w hcur hwne hwws ht)
        (fun v hv => hws v (List.mem_cons_of_mem w hv)) line hline
    · rw [if_neg ht] at hline
      rcases List.mem_cons.mp hline with rfl | hline
      · exact hcur
      · exact ih w (WrapChain.single w hwne hwws)
          (fun v hv => hws v (List.mem_cons_of_mem w hv)) line hline

lemma wrap_line_cases (width : Str → Nat) (maxW : Nat) (text : Str) :
    ∀ line ∈ wrap width maxW text, line = [] ∨ WrapChain width maxW line := by
  intro line hline
  unfold wrap at hline
  rw [List.mem_flatMap] at hline
  obtain ⟨para, _, hpara⟩ := hline
  unfold wrapPara at hpara
  by_cases hs : pyStrip para = []
  · rw [if_pos hs] at hpara
    simp at hpara
    exact Or.inl hpara
  · rw [if_neg hs] at hpara
    cases hwords : pyWords para with
    | nil =>
      rw [hwords] at hpara
      simp at hpara
      exact Or.inl hpara
    | cons w ws =>
      rw [hwords] at hpara
      have hw := mem_pyWords para w (by rw [hwords]; exact List.mem_cons_self w ws)
      have hws : ∀ v ∈ ws, v ≠ [] ∧ ∀ c ∈ v, isWs c = false := by
        intro v hv
        exact mem_pyWords para v (by rw [hwords]; exact List.mem_cons_of_mem w hv)
      exact Or.inr (wrapLoop_chain width maxW ws w (WrapChain.single w hw.1 hw.2) hws line hpara)

lemma wrapPara_ne_nil (width : Str → Nat) (maxW : Nat) (para : Str) :
    wrapPara width maxW para ≠ [] := by
  unfold wrapPara
  by_cases hs : pyStrip para = []
  · simp [hs]
  · rw [if_neg hs]
    cases hwords : pyWords para with
    | nil => simp
    | cons w ws => exact wrapLoop_ne_nil width maxW ws w

lemma wrap_ne_nil (width : Str → Nat) (maxW : Nat) (text : Str) :
    wrap width maxW text ≠ [] := by
  unfold wrap
  cases hsp : splitNl text with
  | nil => exact absurd hsp (splitPred_ne_nil _ text)
  | cons p rest =>
    simp only [List.flatMap_cons]
    intro h
    rcases List.append_eq_nil.mp h with ⟨h1, _⟩
    exact wrapPara_ne_nil width maxW p h1

lemma flatMap_singleton_id {α : Type} (f : α → List α) :
    ∀ (ls : List α), (∀ l ∈ ls, f l = [l]) → ls.flatMap f = ls := by
  intro ls
  induction ls with
  | nil => intro _; rfl
  | cons l ls ih =>
    intro h
    simp only [List.flatMap_cons, h l (List.mem_cons_self l ls),
      ih (fun v hv => h v (List.mem_cons_of_mem l hv))]
    rfl

/-- CLAIM C7: wrapping is idempotent — joining the wrapped lines with
explicit newline characters and wrapping again with the same measure and
maximum width reproduces exactly the same line sequence. -/
theorem wrap_idempotent (width : Str → Nat) (maxW : Nat) (text : Str) :
    wrap width maxW (joinNl (wrap width maxW text)) = wrap width maxW text := by
  have hcases := wrap_line_cases width maxW text
  have hne := wrap_ne_nil width maxW text
  have hnl : ∀ l ∈ wrap width maxW text, ∀ c ∈ l, (c == '\n') = false := by
    intro l hl
    rcases hcases l hl with rfl | hchain
    · intro c hc; simp at hc
    · exact chain_no_nl hchain
  conv_lhs => rw [wrap]
  rw [splitNl_joinNl (wrap width maxW text) hne hnl]
  apply flatMap_singleton_id
  intro l hl
  rcases hcases l hl with rfl | hchain
  · simp [wrapPara, pyStrip]
  · exact chain_wrapPara hchain

lemma head_dropWhile_false (p : Char → Bool) :
    ∀ (l : List Char) (a : Char) (as : List Char), l.dropWhile p = a :: as → p a = false := by
  intro l
  induction l with
  | nil => intro a as h; simp at h
  | cons x xs ih =>
    intro a as h
    by_cases hx : p x
    · rw [List.dropWhile_cons_of_pos hx] at h
      exact ih a as h
    · rw [List.dropWhile_cons_of_neg hx] at h
      injection h with h1 _
      subst h1
      exact Bool.eq_false_iff.mpr hx

lemma dropWhile_idem (p : Char → Bool) (l : List Char) :
    (l.dropWhile p).dropWhile p = l.dropWhile p := by
  cases h : l.dropWhile p with
  | nil => rfl
  | cons a as =>
    have ha := head_dropWhile_false p l a as h
    exact List.dropWhile_cons_of_neg (by simp [ha])

lemma pyStrip_head_false (s : Str) (a : Char) (as : Str)
    (h : pyStrip s = a :: as) : isWs a = false := by
  unfold pyStrip at h
  cases hu : (s.dropWhile isWs) with
  | nil => rw [hu] at h; simp at h
  | cons b bs =>
    have hb : isWs b = false := head_dropWhile_false isWs s b bs hu
    have hhead : (pyStrip s).head? = some b := by
      unfold pyStrip
      rw [List.head?_reverse]
      cases hv : ((s.dropWhile isWs).reverse.dropWhile isWs) with
      | nil =>
        exfalso
        rw [hv] at h
        simp at h
      | cons c cs =>
        obtain ⟨pre, hpre⟩ :=
          (List.dropWhile_suffix isWs :
            (s.dropWhile isWs).reverse.dropWhile isWs <:+ (s.dropWhile isWs).reverse)
        rw [hv] at hpre
        calc (c :: cs).getLast? = (pre ++ c :: cs).getLast? :=
              (List.getLast?_append_of_ne_nil pre (by simp)).symm
          _ = ((s.dropWhile isWs).reverse).getLast? := by rw [hpre]
          _ = (s.dropWhile isWs).head? := List.getLast?_reverse _
          _ = some b := by rw [hu]; rfl
    rw [pyStrip, h] at hhead
    simp at hhead
    rw [← hhead] at hb
    exact hb

lemma pyStrip_dropWhile (s : Str) : (pyStrip s).dropWhile isWs = pyStrip s := by
  cases h : pyStrip s with
  | nil => rfl
  | cons a as =>
    exact List.dropWhile_cons_of_neg (by simp [pyStrip_head_false s a as h])

lemma pyStrip_idem (s : Str) : pyStrip (pyStrip s) = pyStrip s := by
  conv_lhs => rw [pyStrip, pyStrip_dropWhile s]
  rw [pyStrip]
  rw [List.reverse_reverse, dropWhile_idem]

lemma mem_pyStrip (s : Str) : ∀ c ∈ pyStrip s, c ∈ s := by
  intro c hc
  unfold pyStrip at hc
  rw [List.mem_reverse] at hc
  have h1 := (List.dropWhile_sublist isWs).mem hc
  rw [List.mem_reverse] at h1
  exact (List.dropWhile_sublist isWs).mem h1

/-- A bullet item produced by render_content's parser: the stored title
and the space-joined description. -/
structure Item where
  title : Str
  desc : Str
  deriving DecidableEq

/-- Marker test of the parser: the line starts with one of the literal
bullet markers -, •, ·. -/
def startsWithMarker (line : Str) : Bool :=
  line.head? == some '-' || line.head? == some '•' || line.head? == some '·'

/-- Numeral test of the parser: strictly more than two characters, the
first a digit, the second '.' or ')'. -/
def startsWithNumeral (line : Str) : Bool :=
  match line with
  | c0 :: c1 :: _ :: _ => c0.isDigit && (c1 == '.' || c1 == ')')
  | _ => false

/-- One iteration of the line loop in render_content's bullet parsing;
the state ist the pair (items collected so far, currently open item). -/
def bulletStep (st : List Item × Option Item) (rawLine : Str) : List Item × Option Item :=
  let line := pyStrip rawLine
  if line.isEmpty then
    match st.2 with
    | some it => (st.1 ++ [it], none)
    | none => (st.1, none)
  else
    if startsWithMarker line then
      match st.2 with
      | some it => (st.1 ++ [it], some ⟨pyStrip (line.drop 1), []⟩)
      | none => (st.1, some ⟨pyStrip (line.drop 1), []⟩)
    else if startsWithNumeral line then
      match st.2 with
      | some it => (st.1 ++ [it], some ⟨pyStrip (line.drop 2), []⟩)
      | none => (st.1, some ⟨pyStrip (line.drop 2), []⟩)
    else
      match st.2 with
      | some it => (st.1, some ⟨it.title, it.desc ++ (if it.desc.isEmpty then [] else [' ']) ++ line⟩)
      | none => (st.1 ++ [⟨line, []⟩], none)

/-- The bullet-list parsing block of CardNewsRenderer.render_content:
fold the line loop over body.strip().split("\n"), flush the open item,
and fall back to a single item holding the stripped body when nothing
was detected. -/
def parseBullets (body : Str) : List Item :=
  let st := (splitNl (pyStrip body)).foldl bulletStep ([], none)
  let items := match st.2 with
    | some it => st.1 ++ [it]
    | none => st.1
  if items.isEmpty then [⟨pyStrip body, []⟩] else items

/-- COUNTEREXAMPLE to claim C5 as stated: "10. Foo" is a trimmed line
starting with a two-digit numeral followed by '.', yet the parser stores
the whole line as a plain item title — the numeral prefix is not
stripped, because the code only accepts a single leading digit (and only
when more than two characters follow in total). -/
theorem bullet_two_digit_counterexample :
    parseBullets (String.toList "10. Foo") = [⟨String.toList "10. Foo", []⟩] ∧
      String.toList "10. Foo" ≠ String.toList "Foo" := by
  constructor
  · decide
  · decide

/-- CLAIM C5 (amended): in the bullet-list parser, a trimmed line that
starts with a bullet marker (-, •, ·), or that has more than two
characters and starts with a single digit followed by '.' or ')', starts
a new item (closing any open one) whose stored title is the line with
that one- or two-character prefix removed and surrounding whitespace
trimmed. -/
theorem bullet_line_starts_item (items : List Item) (cur : Option Item) (rawLine : Str) :
    (startsWithMarker (pyStrip rawLine) = true →
      bulletStep (items, cur) rawLine =
        (items ++ cur.toList, some ⟨pyStrip ((pyStrip rawLine).drop 1), []⟩)) ∧
    (startsWithMarker (pyStrip rawLine) = false →
      startsWithNumeral (pyStrip rawLine) = true →
      bulletStep (items, cur) rawLine =
        (items ++ cur.toList, some ⟨pyStrip ((pyStrip rawLine).drop 2), []⟩)) := by
  constructor
  · intro hm
    have hne : (pyStrip rawLine).isEmpty = false := by
      cases h : pyStrip rawLine with
      | nil => rw [h] at hm; simp [startsWithMarker] at hm
      | cons a as => simp
    cases cur with
    | none => simp [bulletStep, hne, hm, Option.toList]
    | some it => simp [bulletStep, hne, hm, Option.toList]
  · intro hm hn
    have hne : (pyStrip rawLine).isEmpty = false := by
      cases h : pyStrip rawLine with
      | nil => rw [h] at hn; simp [startsWithNumeral] at hn
      | cons a as => simp
    cases cur with
    | none => simp [bulletStep, hne, hm, hn, Option.toList]
    | some it => simp [bulletStep, hne, hm, hn, Option.toList]

/-- Witness for bullet_line_starts_item: "- a" opens an item titled "a",
and "1) b" opens an item titled "b". -/
theorem bullet_line_starts_item_witness :
    bulletStep ([], none) (String.toList "- a") = ([], some ⟨String.toList "a", []⟩) ∧
      bulletStep ([], none) (String.toList "1) b") = ([], some ⟨String.toList "b", []⟩) :=
  ⟨((bullet_line_starts_item [] none (String.toList "- a")).1 (by decide)).trans (by decide),
   ((bullet_line_starts_item [] none (String.toList "1) b")).2 (by decide) (by decide)).trans
     (by decide)⟩

/-- COUNTEREXAMPLE to claim C6 as stated: the two-line free prose
"ab\ncd" contains no bullet markers at all, yet parsing yields two items
(one per non-blank line), not exactly one item titled with the trimmed
input. -/
theorem prose_two_lines_counterexample :
    (parseBullets (String.toList "ab\ncd")).length = 2 ∧
      parseBullets (String.toList "ab\ncd") =
        [⟨String.toList "ab", []⟩, ⟨String.toList "cd", []⟩] ∧
      startsWithMarker (String.toList "ab") = false ∧
      startsWithNumeral (String.toList "ab") = false ∧
      startsWithMarker (String.toList "cd") = false ∧
      startsWithNumeral (String.toList "cd") = false := by
  refine ⟨?_, ?_, ?_, ?_, ?_, ?_⟩ <;> decide

/-- CLAIM C6 (amended): single-line free prose — non-blank, containing no
newline character and matching neither the bullet-marker nor the numeral
prefix — parses to exactly one item whose title is the trimmed input and
whose description is empty; and whenever no items are detected (every
line blank, that is, the body trims to nothing), the entire body becomes
a single item, with title the trimmed body and an empty description. -/
theorem prose_single_item (body : Str) :
    (pyStrip body ≠ [] →
      (∀ c ∈ body, (c == '\n') = false) →
      startsWithMarker (pyStrip body) = false →
      startsWithNumeral (pyStrip body) = false →
      parseBullets body = [⟨pyStrip body, []⟩]) ∧
    (pyStrip body = [] → parseBullets body = [⟨pyStrip body, []⟩]) := by
  constructor
  · intro hne hnl hm hn
    have hnl' : ∀ c ∈ pyStrip body, (c == '\n') = false :=
      fun c hc => hnl c (mem_pyStrip body c hc)
    have hsplit : splitNl (pyStrip body) = [pyStrip body] :=
      splitPred_no_sep _ (pyStrip body) hnl'
    have hstrip := pyStrip_idem body
    have hempty : (pyStrip (pyStrip body)).isEmpty = false := by
      rw [hstrip]
      cases h : pyStrip body with
      | nil => exact absurd h hne
      | cons a as => simp
    unfold parseBullets
    rw [hsplit]
    simp only [List.foldl_cons, List.foldl_nil]
    rw [bulletStep]
    simp only [hstrip, hempty, hm, hn, Bool.false_eq_true, if_false, if_pos rfl]
    simp [hne]
  · intro hnil
    unfold parseBullets
    rw [hnil]
    simp [splitNl, splitPred, bulletStep, pyStrip]

/-- Witness for prose_single_item: plain prose "hello world" becomes one
item titled "hello world" with empty description, and a blank body "  "
becomes one item with empty title and description. -/
theorem prose_single_item_witness :
    parseBullets (String.toList "hello world") =
        [⟨pyStrip (String.toList "hello world"), []⟩] ∧
      parseBullets (String.toList "  ") = [⟨pyStrip (String.toList "  "), []⟩] :=
  ⟨(prose_single_item (String.toList "hello world")).1 (by decide) (by decide) (by decide)
      (by decide),
   (prose_single_item (String.toList "  ")).2 (by decide)⟩

/-- Geometry of _fit_cover: the crop box (left, upper, right, lower)
applied to a pw x ph photo, and the exact size passed to the final
resize. Ratios are exact rationals; int() truncation of the positive
products is the rational floor. -/
structure FitResult where
  cropLeft : Nat
  cropTop : Nat
  cropRight : Nat
  cropBottom : Nat
  outW : Nat
  outH : Nat
  deriving DecidableEq

/-- Model of _fit_cover(photo, w, h) for a photo of size pw x ph: crop
along the axis with excess relative to the target aspect ratio, then
resize to exactly (w, h). -/
def fitCover (pw ph w h : Nat) : FitResult :=
  if ((pw : ℚ) / ph) > ((w : ℚ) / h) then
    let newW := (⌊(ph : ℚ) * ((w : ℚ) / h)⌋).toNat
    let left := (pw - newW) / 2
    ⟨left, 0, left + newW, ph, w, h⟩
  else
    let newH := (⌊(pw : ℚ) / ((w : ℚ) / h)⌋).toNat
    let top := (ph - newH) / 2
    ⟨0, top, pw, top + newH, w, h⟩

/-- COUNTEREXAMPLE to claim C4 as stated: cropping a 4 x 1 photo to a
1 x 1 target removes 1 pixel from the left but 2 pixels from the right —
the two sides are not equal when the excess is odd. -/
theorem fit_cover_asym_counterexample :
    (fitCover 4 1 1 1).cropLeft = 1 ∧ 4 - (fitCover 4 1 1 1).cropRight = 2 ∧
      (fitCover 4 1 1 1).cropLeft ≠ 4 - (fitCover 4 1 1 1).cropRight := by
  have h : fitCover 4 1 1 1 = ⟨1, 0, 2, 1, 1, 1⟩ := by
    unfold fitCover
    rw [if_pos (by norm_num)]
    norm_num
  rw [h]
  refine ⟨rfl, rfl, by decide⟩

/-- CLAIM C4 (amended): for positive photo and target dimensions,
cover-fit always resizes to exactly (w, h), the crop box stays inside the
photo, and the crop is central up to one pixel: on each axis the amounts
removed from the two sides differ by at most one, the extra pixel (odd
excess) coming off the right or bottom side. -/
theorem fit_cover_spec (pw ph w h : Nat)
    (hpw : 0 < pw) (hph : 0 < ph) (hw : 0 < w) (hh : 0 < h) :
    (fitCover pw ph w h).outW = w ∧ (fitCover pw ph w h).outH = h ∧
    (fitCover pw ph w h).cropRight ≤ pw ∧ (fitCover pw ph w h).cropBottom ≤ ph ∧
    ((fitCover pw ph w h).cropLeft ≤ pw - (fitCover pw ph w h).cropRight + 1 ∧
      pw - (fitCover pw ph w h).cropRight ≤ (fitCover pw ph w h).cropLeft + 1 ∧
      (fitCover pw ph w h).cropLeft ≤ pw - (fitCover pw ph w h).cropRight) ∧
    ((fitCover pw ph w h).cropTop ≤ ph - (fitCover pw ph w h).cropBottom + 1 ∧
      ph - (fitCover pw ph w h).cropBottom ≤ (fitCover pw ph w h).cropTop + 1 ∧
      (fitCover pw ph w h).cropTop ≤ ph - (fitCover pw ph w h).cropBottom) := by
  have hph' : (0 : ℚ) < ph := by exact_mod_cast hph
  have hh' : (0 : ℚ) < h := by exact_mod_cast hh
  have hw' : (0 : ℚ) < w := by exact_mod_cast hw
  unfold fitCover
  by_cases hr : ((pw : ℚ) / ph) > ((w : ℚ) / h)
  · rw [if_pos hr]
    have hlt : (ph : ℚ) * ((w : ℚ) / h) < pw := by
      rw [mul_comm]
      exact (lt_div_iff hph').mp hr
    have h1 : ⌊(ph : ℚ) * ((w : ℚ) / h)⌋ < (pw : ℤ) := by
      rw [Int.floor_lt]
      push_cast
      exact hlt
    dsimp only
    refine ⟨rfl, rfl, ?_, ?_, ⟨?_, ?_, ?_⟩, ⟨?_, ?_, ?_⟩⟩ <;> omega
  · rw [if_neg hr]
    have hwh : (0 : ℚ) < (w : ℚ) / h := div_pos hw' hh'
    have hle2 : (pw : ℚ) / ph ≤ (w : ℚ) / h := le_of_not_lt hr
    have hle3 : (pw : ℚ) / ((w : ℚ) / h) ≤ ph := by
      rw [div_le_iff hwh]
      have h4 : (pw : ℚ) ≤ (w : ℚ) / h * ph := (div_le_iff hph').mp hle2
      linarith
    have h1 : ⌊(pw : ℚ) / ((w : ℚ) / h)⌋ ≤ (ph : ℤ) := by
      have h5 := Int.floor_le_floor hle3
      rwa [Int.floor_natCast] at h5
    dsimp only
    refine ⟨rfl, rfl, ?_, ?_, ⟨?_, ?_, ?_⟩, ⟨?_, ?_, ?_⟩⟩ <;> omega

/-- Witness for fit_cover_spec: a 3 x 2 photo fit to a 1 x 1 target. -/
theorem fit_cover_spec_witness :
    (fitCover 3 2 1 1).outW = 1 ∧ (fitCover 3 2 1 1).outH = 1 :=
  ⟨(fit_cover_spec 3 2 1 1 (by decide) (by decide) (by decide) (by decide)).1,
   (fit_cover_spec 3 2 1 1 (by decide) (by decide) (by decide) (by decide)).2.1⟩

/-- Python int() truncation toward zero, on exact rationals. -/
def pyInt (q : ℚ) : ℤ := if q < 0 then ⌈q⌉ else ⌊q⌋

/-- Alpha drawn by _gradient_overlay on the scanline at row y of an
image of height h: t = y / max(h - 1, 1) and
a = int(alpha_top + (alpha_bottom - alpha_top) * t). -/
def gradientAlphaAt (h y : Nat) (aTop aBot : ℤ) : ℤ :=
  pyInt ((aTop : ℚ) + ((aBot : ℚ) - (aTop : ℚ)) * ((y : ℚ) / ((max (h - 1) 1 : Nat) : ℚ)))

lemma pyInt_intCast (z : ℤ) : pyInt ((z : ℚ)) = z := by
  unfold pyInt
  split <;> simp

/-- COUNTEREXAMPLE to claim C8 as stated: on an image of height 1 the
single row (which is also the last row) is drawn with alpha_top, so with
alpha_top = 40 and alpha_bottom = 200 the sampled alpha at the last row
is 160 units away from alpha_bottom, far beyond one unit of rounding. -/
theorem gradient_h1_counterexample :
    gradientAlphaAt 1 (1 - 1) 40 200 = 40 ∧
      ¬ (|gradientAlphaAt 1 (1 - 1) 40 200 - 200| ≤ 1) := by
  have h : gradientAlphaAt 1 (1 - 1) 40 200 = 40 := by
    norm_num [gradientAlphaAt, pyInt]
  rw [h]
  exact ⟨rfl, by decide⟩

/-- CLAIM C8 (amended): for images of height at least 2 and nonnegative
alpha parameters, the gradient overlay's sampled alpha at row 0 is
exactly alpha_top, at the last row exactly alpha_bottom, and at every
row within one unit of the linear interpolation between them. For an
image of height 1 the single row receives alpha_top. -/
theorem gradient_endpoints (h : Nat) (aTop aBot : ℤ) (hh : 2 ≤ h)
    (htop : 0 ≤ aTop) (hbot : 0 ≤ aBot) :
    gradientAlphaAt h 0 aTop aBot = aTop ∧
    gradientAlphaAt h (h - 1) aTop aBot = aBot ∧
    ∀ y, y ≤ h - 1 →
      |((gradientAlphaAt h y aTop aBot : ℤ) : ℚ) -
          ((aTop : ℚ) + ((aBot : ℚ) - (aTop : ℚ)) * ((y : ℚ) / (((h - 1 : Nat) : ℚ))))| ≤ 1 := by
  have hm : max (h - 1) 1 = h - 1 := by omega
  have hd : (0 : ℚ) < ((h - 1 : Nat) : ℚ) := by
    have : 0 < h - 1 := by omega
    exact_mod_cast this
  refine ⟨?_, ?_, ?_⟩
  · unfold gradientAlphaAt
    rw [hm]
    norm_num
    exact pyInt_intCast aTop
  · unfold gradientAlphaAt
    rw [hm, div_self (ne_of_gt hd)]
    have : (aTop : ℚ) + ((aBot : ℚ) - (aTop : ℚ)) * 1 = ((aBot : ℤ) : ℚ) := by push_cast; ring
    rw [this, pyInt_intCast]
  · intro y hy
    have ht0 : (0 : ℚ) ≤ (y : ℚ) / ((h - 1 : Nat) : ℚ) := by positivity
    have ht1 : (y : ℚ) / ((h - 1 : Nat) : ℚ) ≤ 1 := by
      rw [div_le_one hd]
      exact_mod_cast hy
    have htop' : (0 : ℚ) ≤ (aTop : ℚ) := by exact_mod_cast htop
    have hbot' : (0 : ℚ) ≤ (aBot : ℚ) := by exact_mod_cast hbot
    have hv : (0 : ℚ) ≤ (aTop : ℚ) + ((aBot : ℚ) - (aTop : ℚ)) * ((y : ℚ) / ((h - 1 : Nat) : ℚ)) := by
      nlinarith [mul_nonneg hbot' ht0, mul_nonneg htop' (by linarith : (0 : ℚ) ≤ 1 - (y : ℚ) / ((h - 1 : Nat) : ℚ))]
    unfold gradientAlphaAt pyInt
    rw [hm, if_neg (by linarith)]
    have hfl := Int.floor_le ((aTop : ℚ) + ((aBot : ℚ) - (aTop : ℚ)) * ((y : ℚ) / ((h - 1 : Nat) : ℚ)))
    have hfg := Int.sub_one_lt_floor ((aTop : ℚ) + ((aBot : ℚ) - (aTop : ℚ)) * ((y : ℚ) / ((h - 1 : Nat) : ℚ)))
    rw [abs_le]
    constructor <;> linarith

/-- Witness for gradient_endpoints at height 2 with alphas 40 and 200. -/
theorem gradient_endpoints_witness :
    gradientAlphaAt 2 0 40 200 = 40 ∧ gradientAlphaAt 2 (2 - 1) 40 200 = 200 :=
  ⟨(gradient_endpoints 2 40 200 (by decide) (by decide) (by decide)).1,
   (gradient_endpoints 2 40 200 (by decide) (by decide) (by decide)).2.1⟩

/-- A template record of the TEMPLATES registry. -/
structure Template where
  overlay_color : Nat × Nat × Nat
  overlay_alpha : ℚ
  text_white : Bool
  card_bg : String
  accent : String
  heading_text : String
  body_text : String
  muted : String
  item_bg : String
  item_border : String
  deriving DecidableEq

/-- The closed template registry of card_news.py. -/
def TEMPLATES : List (String × Template) :=
  [("깔끔한 화이트",
    ⟨(0, 0, 0), 45/100, true, "#FFFFFF", "#3D7DD9", "#1A1A1A", "#333333",
     "#999999", "#F2F7FF", "#3D7DD9"⟩),
   ("다크 프리미엄",
    ⟨(10, 10, 20), 55/100, true, "#1A1A2E", "#E94560", "#FFFFFF", "#E0E0F0",
     "#666680", "#22223A", "#E94560"⟩),
   ("수壽 브랜드",
    ⟨(30, 15, 5), 50/100, true, "#FFFBF5", "#C4956A", "#2D1810", "#4A3728",
     "#B0A090", "#F5EDE3", "#C4956A"⟩),
   ("건강 그린",
    ⟨(10, 30, 20), 50/100, true, "#FFFFFF", "#40916C", "#1B4332", "#2D5A42",
     "#88B0A0", "#E8F5EE", "#40916C"⟩)]

/-- The renderer object: selected template and canvas size. -/
structure CardNewsRenderer where
  t : Template
  w : Nat
  h : Nat
  deriving DecidableEq

/-- Model of CardNewsRenderer.__init__: an unrecognized template name
raises (modelled as Except.error carrying the formatted message); a
recognized one constructs the renderer. -/
def rendererInit (template_name : String) (size : Nat × Nat) :
    Except String CardNewsRenderer :=
  match TEMPLATES.lookup template_name with
  | Option.none => Except.error ("알 수 없는 템플릿: " ++ template_name)
  | some t => Except.ok ⟨t, size.1, size.2⟩

/-- A slide descriptor as passed to render_all; missing dict keys are
modelled by the empty-string / none defaults that slide.get supplies.
The background slot is polymorphic in the payload type. -/
structure Slide (β : Type) where
  type : String
  title : String
  subtitle : String
  heading : String
  body : String
  cta_text : String
  account_name : String
  bg_image : Option β
  deriving DecidableEq

/-- A rendered slide, abstracted as the render call made for it: the
three render methods are recorded with their arguments (content slides
carry the assigned sequence number and the total). -/
inductive Rendered (β : Type) where
  | cover (title subtitle : String) (bg : Option β)
  | content (heading body : String) (slideNum totalSlides : Nat) (bg : Option β)
  | closing (ctaText accountName : String) (bg : Option β)
  deriving DecidableEq

/-- Number of content slides of a batch:
sum(1 for s in slides_data if s["type"] == "content"). -/
def contentCount {β : Type} (slides : List (Slide β)) : Nat :=
  (slides.filter (fun s => s.type == "content")).length

/-- The slide loop of render_all: idx is the running content counter. -/
def renderLoop {β : Type} (total : Nat) : Nat → List (Slide β) → List (Rendered β)
  | _, [] => []
  | idx, s :: rest =>
    if s.type == "cover" then
      Rendered.cover s.title s.subtitle s.bg_image :: renderLoop total idx rest
    else if s.type == "content" then
      Rendered.content s.heading s.body (idx + 1) total s.bg_image ::
        renderLoop total (idx + 1) rest
    else if s.type == "closing" then
      Rendered.closing s.cta_text s.account_name s.bg_image :: renderLoop total idx rest
    else renderLoop total idx rest

/-- Model of CardNewsRenderer.render_all: count the content slides, then
dispatch on each slide's type in input order, incrementing the content
counter only on content slides; unrecognized types are skipped. -/
def renderAll {β : Type} (r : CardNewsRenderer) (slides : List (Slide β)) :
    List (Rendered β) :=
  renderLoop (contentCount slides) 0 slides

/-- A whole render batch: construct the renderer for the template name
(default canvas 1080 x 1080) and render every slide; an unrecognized
name aborts before any slide is rendered. -/
def runBatch {β : Type} (template_name : String) (slides : List (Slide β)) :
    Except String (List (Rendered β)) :=
  (rendererInit template_name (1080, 1080)).map (fun r => renderAll r slides)

/-- CLAIM C3: construction fails with the configuration error exactly
for names outside the closed template registry — and then a whole render
batch aborts with the same error, producing no output — while every
recognized name constructs a renderer successfully. -/
theorem renderer_init_templates {β : Type} (name : String) (sz : Nat × Nat)
    (slides : List (Slide β)) :
    (TEMPLATES.lookup name = Option.none →
      rendererInit name sz = Except.error ("알 수 없는 템플릿: " ++ name) ∧
      runBatch name slides = Except.error ("알 수 없는 템플릿: " ++ name)) ∧
    (∀ t, TEMPLATES.lookup name = some t →
      rendererInit name sz = Except.ok ⟨t, sz.1, sz.2⟩) := by
  constructor
  · intro h
    constructor
    · simp [rendererInit, h]
    · simp [runBatch, rendererInit, h, Except.map]
  · intro t h
    simp [rendererInit, h]

/-- Witness for renderer_init_templates: an unknown name errors, the
first registry name constructs. -/
theorem renderer_init_templates_witness :
    rendererInit "없는 템플릿" (1080, 1080) =
        Except.error ("알 수 없는 템플릿: " ++ "없는 템플릿") ∧
      rendererInit "깔끔한 화이트" (1080, 1080) =
        Except.ok ⟨⟨(0, 0, 0), 45/100, true, "#FFFFFF", "#3D7DD9", "#1A1A1A", "#333333",
          "#999999", "#F2F7FF", "#3D7DD9"⟩, 1080, 1080⟩ :=
  ⟨((renderer_init_templates "없는 템플릿" (1080, 1080) ([] : List (Slide Unit))).1 rfl).1,
   (renderer_init_templates "깔끔한 화이트" (1080, 1080) ([] : List (Slide Unit))).2
     ⟨(0, 0, 0), 45/100, true, "#FFFFFF", "#3D7DD9", "#1A1A1A", "#333333",
      "#999999", "#F2F7FF", "#3D7DD9"⟩ rfl⟩

lemma contentCount_cons {β : Type} (s : Slide β) (l : List (Slide β)) :
    contentCount (s :: l) = (if s.type == "content" then 1 else 0) + contentCount l := by
  unfold contentCount
  rw [List.filter_cons]
  split
  · simp [Nat.add_comm]
  · simp

lemma renderLoop_spec {β : Type} (total : Nat) :
    ∀ (slides : List (Slide β)) (idx : Nat),
      (∀ s ∈ slides, s.type = "cover" ∨ s.type = "content" ∨ s.type = "closing") →
      ((renderLoop total idx slides).length = slides.length ∧
       ∀ (i : Nat) (s : Slide β), slides[i]? = some s →
         (s.type = "cover" →
           (renderLoop total idx slides)[i]? =
             some (Rendered.cover s.title s.subtitle s.bg_image)) ∧
         (s.type = "content" →
           (renderLoop total idx slides)[i]? =
             some (Rendered.content s.heading s.body
               (idx + contentCount (slides.take (i + 1))) total s.bg_image)) ∧
         (s.type = "closing" →
           (renderLoop total idx slides)[i]? =
             some (Rendered.closing s.cta_text s.account_name s.bg_image))) := by
  intro slides
  induction slides with
  | nil =>
    intro idx _
    refine ⟨rfl, ?_⟩
    intro i s hs
    simp at hs
  | cons s rest ih =>
    intro idx htypes
    rcases htypes s (List.mem_cons_self s rest) with hc | hc | hc
    · have hr : renderLoop total idx (s :: rest) =
          Rendered.cover s.title s.subtitle s.bg_image :: renderLoop total idx rest := by
        simp [renderLoop, hc]
      obtain ⟨ihlen, ihidx⟩ := ih idx (fun v hv => htypes v (List.mem_cons_of_mem s hv))
      constructor
      · rw [hr]
        simp [ihlen]
      · intro i s0 hs0
        match i with
        | 0 =>
          rw [List.getElem?_cons_zero] at hs0
          injection hs0 with hs0
          subst hs0
          refine ⟨fun _ => by rw [hr, List.getElem?_cons_zero], ?_, ?_⟩
          · intro habs
            rw [hc] at habs
            simp at habs
          · intro habs
            rw [hc] at habs
            simp at habs
        | Nat.succ j =>
          rw [List.getElem?_cons_succ] at hs0
          obtain ⟨h1, h2, h3⟩ := ihidx j s0 hs0
          have hcount : contentCount ((s :: rest).take (j + 1 + 1)) =
              contentCount (rest.take (j + 1)) := by
            rw [List.take_succ_cons, contentCount_cons, hc]
            simp
          refine ⟨?_, ?_, ?_⟩
          · intro ht
            rw [hr, List.getElem?_cons_succ]
            exact h1 ht
          · intro ht
            rw [hr, List.getElem?_cons_succ, hcount]
            exact h2 ht
          · intro ht
            rw [hr, List.getElem?_cons_succ]
            exact h3 ht
    · have hr : renderLoop total idx (s :: rest) =
          Rendered.content s.heading s.body (idx + 1) total s.bg_image ::
            renderLoop total (idx + 1) rest := by
        simp [renderLoop, hc]
      obtain ⟨ihlen, ihidx⟩ := ih (idx + 1) (fun v hv => htypes v (List.mem_cons_of_mem s hv))
      constructor
      · rw [hr]
        simp [ihlen]
      · intro i s0 hs0
        match i with
        | 0 =>
          rw [List.getElem?_cons_zero] at hs0
          injection hs0 with hs0
          subst hs0
          refine ⟨?_, ?_, ?_⟩
          · intro habs
            rw [hc] at habs
            simp at habs
          · intro _
            rw [hr, List.getElem?_cons_zero]
            have : contentCount ((s :: rest).take 1) = 1 := by
              rw [List.take_succ_cons, List.take_zero, contentCount_cons, hc]
              simp [contentCount]
            rw [this]
          · intro habs
            rw [hc] at habs
            simp at habs
        | Nat.succ j =>
          rw [List.getElem?_cons_succ] at hs0
          obtain ⟨h1, h2, h3⟩ := ihidx j s0 hs0
          have hcount : idx + contentCount ((s :: rest).take (j + 1 + 1)) =
              idx + 1 + contentCount (rest.take (j + 1)) := by
            rw [List.take_succ_cons, contentCount_cons, hc]
            simp
            omega
          refine ⟨?_, ?_, ?_⟩
          · intro ht
            rw [hr, List.getElem?_cons_succ]
            exact h1 ht
          · intro ht
            rw [hr, List.getElem?_cons_succ, hcount]
            exact h2 ht
          · intro ht
            rw [hr, List.getElem?_cons_succ]
            exact h3 ht
    · have hr : renderLoop total idx (s :: rest) =
          Rendered.closing s.cta_text s.account_name s.bg_image ::
            renderLoop total idx rest := by
        simp [renderLoop, hc]
      obtain ⟨ihlen, ihidx⟩ := ih idx (fun v hv => htypes v (List.mem_cons_of_mem s hv))
      constructor
      · rw [hr]
        simp [ihlen]
      · intro i s0 hs0
        match i with
        | 0 =>
          rw [List.getElem?_cons_zero] at hs0
          injection hs0 with hs0
          subst hs0
          refine ⟨?_, ?_, fun _ => by rw [hr, List.getElem?_cons_zero]⟩
          · intro habs
            rw [hc] at habs
            simp at habs
          · intro habs
            rw [hc] at habs
            simp at habs
        | Nat.succ j =>
          rw [List.getElem?_cons_succ] at hs0
          obtain ⟨h1, h2, h3⟩ := ihidx j s0 hs0
          have hcount : contentCount ((s :: rest).take (j + 1 + 1)) =
              contentCount (rest.take (j + 1)) := by
            rw [List.take_succ_cons, contentCount_cons, hc]
            simp
          refine ⟨?_, ?_, ?_⟩
          · intro ht
            rw [hr, List.getElem?_cons_succ]
            exact h1 ht
          · intro ht
            rw [hr, List.getElem?_cons_succ, hcount]
            exact h2 ht
          · intro ht
            rw [hr, List.getElem?_cons_succ]
            exact h3 ht

/-- CLAIM C2: when every slide kind lies in {cover, content, closing},
render_all returns one rendered image per descriptor in input order; a
content slide at position i is numbered by the count of content slides
among the first i + 1 descriptors (1-based among content slides only)
with the total content count, while cover and closing slides carry no
sequence number and leave the counter untouched. -/
theorem renderAll_ordered {β : Type} (r : CardNewsRenderer) (slides : List (Slide β))
    (htypes : ∀ s ∈ slides, s.type = "cover" ∨ s.type = "content" ∨ s.type = "closing") :
    (renderAll r slides).length = slides.length ∧
    ∀ (i : Nat) (s : Slide β), slides[i]? = some s →
      (s.type = "cover" →
        (renderAll r slides)[i]? = some (Rendered.cover s.title s.subtitle s.bg_image)) ∧
      (s.type = "content" →
        (renderAll r slides)[i]? = some (Rendered.content s.heading s.body
          (contentCount (slides.take (i + 1))) (contentCount slides) s.bg_image)) ∧
      (s.type = "closing" →
        (renderAll r slides)[i]? =
          some (Rendered.closing s.cta_text s.account_name s.bg_image)) := by
  obtain ⟨hlen, hidx⟩ := renderLoop_spec (contentCount slides) slides 0 htypes
  refine ⟨hlen, ?_⟩
  intro i s hs
  obtain ⟨h1, h2, h3⟩ := hidx i s hs
  refine ⟨h1, ?_, h3⟩
  intro ht
  have := h2 ht
  simpa using this

/-- Example renderer used by the orchestration witness. -/
def sampleRenderer : CardNewsRenderer :=
  ⟨⟨(0, 0, 0), 45/100, true, "#FFFFFF", "#3D7DD9", "#1A1A1A", "#333333",
    "#999999", "#F2F7FF", "#3D7DD9"⟩, 1080, 1080⟩

/-- The spec's example batch [cover, content, content, closing]. -/
def sampleSlides : List (Slide Unit) :=
  [⟨"cover", "T", "S", "", "", "", "", Option.none⟩,
   ⟨"content", "", "", "H1", "B1", "", "", Option.none⟩,
   ⟨"content", "", "", "H2", "B2", "", "", Option.none⟩,
   ⟨"closing", "", "", "", "", "CTA", "ACC", Option.none⟩]

/-- Witness for renderAll_ordered: on [cover, content, content, closing]
four images are produced and the content slides are numbered 1 and 2. -/
theorem renderAll_ordered_witness :
    (renderAll sampleRenderer sampleSlides).length = 4 ∧
      (renderAll sampleRenderer sampleSlides)[1]? =
        some (Rendered.content "H1" "B1" 1 2 Option.none) ∧
      (renderAll sampleRenderer sampleSlides)[2]? =
        some (Rendered.content "H2" "B2" 2 2 Option.none) := by
  have h := renderAll_ordered sampleRenderer sampleSlides (by decide)
  refine ⟨h.1.trans rfl, ?_, ?_⟩
  · have h2 := (h.2 1 ⟨"content", "", "", "H1", "B1", "", "", Option.none⟩ rfl).2.1 rfl
    exact h2.trans (by decide)
  · have h2 := (h.2 2 ⟨"content", "", "", "H2", "B2", "", "", Option.none⟩ rfl).2.1 rfl
    exact h2.trans (by decide)

/-- A resolved font handle: a truetype load of a path at a size, or the
built-in fallback returned by ImageFont.load_default(). -/
inductive FontHandle where
  | truetype (path : String) (size : Nat)
  | fallback
  deriving DecidableEq

/-- The filesystem as _load_font observes it: which paths exist, and
whether ImageFont.truetype(path, size) succeeds (failures are caught). -/
structure FontFS where
  pathExists : String → Bool
  loadOk : String → Nat → Bool

/-- The _FONT_PATHS table; home abstracts os.path.expanduser("~") and
fontDir the module-relative fonts directory. -/
def FONT_PATHS (home fontDir : String) : List (String × List String) :=
  [("bold", [home ++ "/Library/Fonts/Pretendard-Bold.otf",
             fontDir ++ "/Pretendard-Bold.otf",
             "/System/Library/Fonts/AppleSDGothicNeo.ttc"]),
   ("semibold", [home ++ "/Library/Fonts/Pretendard-SemiBold.otf",
                 fontDir ++ "/Pretendard-SemiBold.otf",
                 "/System/Library/Fonts/AppleSDGothicNeo.ttc"]),
   ("regular", [home ++ "/Library/Fonts/Pretendard-Regular.otf",
                fontDir ++ "/Pretendard-Regular.otf",
                "/System/Library/Fonts/AppleSDGothicNeo.ttc"]),
   ("medium", [home ++ "/Library/Fonts/Pretendard-Medium.otf",
               fontDir ++ "/Pretendard-Medium.otf",
               "/System/Library/Fonts/AppleSDGothicNeo.ttc"]),
   ("serif", [home ++ "/Library/Fonts/MaruBuri-SemiBold.ttf",
              fontDir ++ "/MaruBuri-SemiBold.ttf",
              home ++ "/Library/Fonts/Pretendard-SemiBold.otf"])]

/-- The candidate list for a role: _FONT_PATHS.get(role, the "regular"
entry). -/
def fontPathsFor (home fontDir role : String) : List String :=
  ((FONT_PATHS home fontDir).lookup role).getD
    [home ++ "/Library/Fonts/Pretendard-Regular.otf",
     fontDir ++ "/Pretendard-Regular.otf",
     "/System/Library/Fonts/AppleSDGothicNeo.ttc"]

/-- The candidate loop of _load_font: the first path that exists and
loads wins; load failures fall through to the next candidate. -/
def tryPaths (fs : FontFS) (size : Nat) : List String → Option FontHandle
  | [] => Option.none
  | p :: ps =>
    if fs.pathExists p then
      if fs.loadOk p size then some (FontHandle.truetype p size)
      else tryPaths fs size ps
    else tryPaths fs size ps

/-- Model of _load_font: consult the (role, size) cache first; otherwise
walk the role's candidate paths; if none loads, fall back to the
built-in default font; cache and return the result in every case. -/
def loadFont (fs : FontFS) (home fontDir : String)
    (cache : List ((String × Nat) × FontHandle)) (role : String) (size : Nat) :
    FontHandle × List ((String × Nat) × FontHandle) :=
  match cache.lookup (role, size) with
  | some f => (f, cache)
  | Option.none =>
    match tryPaths fs size (fontPathsFor home fontDir role) with
    | some f => (f, ((role, size), f) :: cache)
    | Option.none => (FontHandle.fallback, ((role, size), FontHandle.fallback) :: cache)

lemma tryPaths_eq_find (fs : FontFS) (size : Nat) :
    ∀ ps, tryPaths fs size ps =
      (ps.find? (fun p => fs.pathExists p && fs.loadOk p size)).map
        (fun p => FontHandle.truetype p size) := by
  intro ps
  induction ps with
  | nil => rfl
  | cons p ps ih =>
    by_cases he : fs.pathExists p
    · by_cases hl : fs.loadOk p size
      · simp [tryPaths, he, hl, List.find?_cons]
      · simp [tryPaths, he, hl, List.find?_cons, ih]
    · simp [tryPaths, he, List.find?_cons, ih]

/-- CLAIM C9: font resolution is total for every role, size and
filesystem state — candidate paths are tried in order and the first one
that exists and loads wins; a cached entry is returned as is with the
cache unchanged; when every candidate fails, the built-in fallback is
returned; in every case the returned handle ends up cached under
(role, size), so the call never raises. -/
theorem loadFont_total (fs : FontFS) (home fontDir : String)
    (cache : List ((String × Nat) × FontHandle)) (role : String) (size : Nat) :
    ((loadFont fs home fontDir cache role size).2.lookup (role, size) =
      some (loadFont fs home fontDir cache role size).1) ∧
    (∀ g, cache.lookup (role, size) = some g →
      (loadFont fs home fontDir cache role size).1 = g ∧
      (loadFont fs home fontDir cache role size).2 = cache) ∧
    (cache.lookup (role, size) = Option.none →
      (loadFont fs home fontDir cache role size).1 =
        (((fontPathsFor home fontDir role).find?
            (fun p => fs.pathExists p && fs.loadOk p size)).map
          (fun p => FontHandle.truetype p size)).getD FontHandle.fallback) := by
  unfold loadFont
  cases hc : cache.lookup (role, size) with
  | some f =>
    refine ⟨by simp [hc], ?_, ?_⟩
    · intro g hg
      injection hg with hg
      subst hg
      exact ⟨rfl, rfl⟩
    · intro h
      exact absurd h (by simp)
  | none =>
    cases ht : tryPaths fs size (fontPathsFor home fontDir role) with
    | some f =>
      refine ⟨by simp, ?_, ?_⟩
      · intro g hg
        exact absurd hg (by simp)
      · intro _
        rw [tryPaths_eq_find] at ht
        cases hf : ((fontPathsFor home fontDir role).find?
            (fun p => fs.pathExists p && fs.loadOk p size)) with
        | some p =>
          rw [hf] at ht
          simp at ht
          simp [hf, ht]
        | none =>
          rw [hf] at ht
          simp at ht
    | none =>
      refine ⟨by simp, ?_, ?_⟩
      · intro g hg
        exact absurd hg (by simp)
      · intro _
        rw [tryPaths_eq_find] at ht
        cases hf : ((fontPathsFor home fontDir role).find?
            (fun p => fs.pathExists p && fs.loadOk p size)) with
        | some p =>
          rw [hf] at ht
          simp at ht
        | none =>
          simp [hf]

/-- Witness for loadFont_total: on an empty filesystem, with an empty
cache, resolving ("bold", 10) yields the built-in fallback font. -/
theorem loadFont_total_witness :
    (loadFont ⟨fun _ => false, fun _ _ => false⟩ "/h" "/d" [] "bold" 10).1 =
      FontHandle.fallback := by
  have h := (loadFont_total ⟨fun _ => false, fun _ _ => false⟩ "/h" "/d" [] "bold" 10).2.2 rfl
  rw [h]
  rfl

/-- The possible runtime values of a bg_image argument: None, an
in-memory decoded image, an encoded bytes buffer, or a value of any
other type (for example a file-path string), which _open_image does not
recognize. -/
inductive ImgSource (Img Bytes : Type) where
  | none
  | image (i : Img)
  | bytes (b : Bytes)
  | other (o : String)

/-- Model of _open_image: convert a PIL image or decode bytes to an RGB
image, return None for None and for any unrecognized value. -/
def openImage (Img Bytes : Type) (convertRGB : Img → Img) (decode : Bytes → Img) :
    ImgSource Img Bytes → Option Img
  | ImgSource.none => Option.none
  | ImgSource.image i => some (convertRGB i)
  | ImgSource.bytes b => some (decode b)
  | ImgSource.other _ => Option.none

/-- Background decision of a slide renderer. -/
inductive BgChoice (Img : Type) where
  | photo (img : Img)
  | fallback

/-- The head of render_cover: use the decoded photo (cover-fit plus
gradient overlay) when _open_image yields one, else the synthetic
gradient fallback. -/
def renderCoverBg (Img Bytes : Type) (convertRGB : Img → Img) (decode : Bytes → Img)
    (bg : ImgSource Img Bytes) : BgChoice Img :=
  match openImage Img Bytes convertRGB decode bg with
  | some p => BgChoice.photo p
  | Option.none => BgChoice.fallback

/-- The photo-area decision of render_content: photo strip on top when
_open_image yields an image, else the accent heading bar. -/
def renderContentBg (Img Bytes : Type) (convertRGB : Img → Img) (decode : Bytes → Img)
    (bg : ImgSource Img Bytes) : BgChoice Img :=
  match openImage Img Bytes convertRGB decode bg with
  | some p => BgChoice.photo p
  | Option.none => BgChoice.fallback

/-- The background decision of render_closing: blurred darkened photo
when _open_image yields an image, else the two-tone gradient fallback. -/
def renderClosingBg (Img Bytes : Type) (convertRGB : Img → Img) (decode : Bytes → Img)
    (bg : ImgSource Img Bytes) : BgChoice Img :=
  match openImage Img Bytes convertRGB decode bg with
  | some p => BgChoice.photo p
  | Option.none => BgChoice.fallback

/-- CLAIM C10: a bg_image value that is neither None, an in-memory
image, nor a bytes buffer (the other constructor, e.g. a file-path
string) opens to no image, and each of the three slide renderers
silently takes its no-photo fallback branch instead of raising. -/
theorem openImage_other_fallback (Img Bytes : Type) (convertRGB : Img → Img)
    (decode : Bytes → Img) (o : String) :
    openImage Img Bytes convertRGB decode (ImgSource.other o) = Option.none ∧
    renderCoverBg Img Bytes convertRGB decode (ImgSource.other o) = BgChoice.fallback ∧
    renderContentBg Img Bytes convertRGB decode (ImgSource.other o) = BgChoice.fallback ∧
    renderClosingBg Img Bytes convertRGB decode (ImgSource.other o) = BgChoice.fallback :=
  ⟨rfl, rfl, rfl, rfl⟩
